import Mathlib

/-!
Shallow embedding of the quiz-attempt service of the QuizMaker application
(src/quizmaker-app/lib/services/attempt-service.ts) over the relational
schema documented in the repository (tables quizzes, questions,
answer_options, quiz_attempts, attempt_answers).

Conventions of the embedding:
* The database is a record of lists of rows, one list per table.
* SQL SELECT ... WHERE with a single expected row (executeQueryFirst) is
  List.find?; UPDATE ... WHERE is List.map with a condition; INSERT is a
  list append; DELETE is List.filter.
* Boolean-shaped columns (is_completed, is_correct, is_published) are
  stored in the schema as a 0/1 INTEGER and read back through toBool; the
  embedding models them directly as Bool.
* Timestamps are integer milliseconds (Int); generated row ids and the
  current time are passed as explicit parameters (generateId and
  getCurrentTimestamp in the source are nondeterministic).
* The score column is REAL; JavaScript number arithmetic is idealized as
  exact rational arithmetic (Rat), matching the specification, which says
  the score is a real number stored at full precision.
* Every operation returns (Db × Except Err α): the first component is the
  database after the call, whether the call succeeded or threw.  A throw
  in the source aborts the remaining statements but keeps every mutation
  already executed, so an error branch returns the database as mutated so
  far; that the validation errors leave the database untouched is then a
  theorem, not a modelling convention.
* The source throws untyped Error values with distinct messages; the Err
  constructors below are in one-to-one correspondence with the throw
  sites.  The specification taxonomy maps onto them as follows:
  ConflictError = incompleteAttemptExists, InvalidStateError =
  attemptCompleted / attemptAlreadyCompleted / cannotAbandonCompleted,
  ValidationError = questionNotInQuiz / optionNotInQuestion, and the
  combined NotFound/Forbidden lookup failure = attemptNotFoundOrAccessDenied.
-/

namespace QuizMaker

/-- Row of the quizzes table (the columns the attempt service reads). -/
structure QuizRow where
  id : String
  is_published : Bool
deriving DecidableEq

/-- Row of the questions table (the columns the attempt service reads).
The points column is a positive INTEGER by the authoring validation
(questionPointsSchema, min 1); it is modelled as Nat. -/
structure Question where
  id : String
  quiz_id : String
  points : Nat
deriving DecidableEq

/-- Row of the answer_options table (the columns the attempt service reads). -/
structure AnswerOption where
  id : String
  question_id : String
  is_correct : Bool
deriving DecidableEq

/-- Row of the quiz_attempts table. -/
structure QuizAttempt where
  id : String
  student_id : String
  quiz_id : String
  score : Option Rat
  points_earned : Option Nat
  total_points : Option Nat
  started_at : Int
  submitted_at : Option Int
  duration_seconds : Option Int
  is_completed : Bool
deriving DecidableEq

/-- Row of the attempt_answers table. -/
structure AttemptAnswer where
  id : String
  attempt_id : String
  question_id : String
  selected_option_id : Option String
  is_correct : Bool
  points_earned : Nat
  answered_at : Int
deriving DecidableEq

/-- The relational store seen by the attempt service. -/
structure Db where
  quizzes : List QuizRow
  questions : List Question
  answer_options : List AnswerOption
  quiz_attempts : List QuizAttempt
  attempt_answers : List AttemptAnswer
deriving DecidableEq

/-- One constructor per throw site of the attempt service. -/
inductive Err where
  | quizNotFound
  | quizNotPublished
  | incompleteAttemptExists
  | failedToCreateAttempt
  | attemptNotFound
  | attemptCompleted
  | questionNotInQuiz
  | optionNotInQuestion
  | failedToSaveAnswer
  | attemptNotFoundOrAccessDenied
  | attemptAlreadyCompleted
  | cannotAbandonCompleted
deriving DecidableEq

/-- Embedding of startQuizAttempt (attempt-service.ts lines 40 to 93).
Checks that the quiz exists and is published, rejects when an incomplete
attempt for the same (student, quiz) exists, inserts the new in-progress
row, and re-reads it by id. -/
def startQuizAttempt (db : Db) (studentId quizId : String) (newId : String)
    (now : Int) : Db × Except Err QuizAttempt :=
  match db.quizzes.find? (fun q => q.id == quizId) with
  | none => (db, .error .quizNotFound)
  | some quiz =>
    if !quiz.is_published then (db, .error .quizNotPublished)
    else
      match db.quiz_attempts.find? (fun a =>
          a.student_id == studentId && a.quiz_id == quizId &&
          a.is_completed == false) with
      | some _ => (db, .error .incompleteAttemptExists)
      | none =>
        let attempt : QuizAttempt :=
          { id := newId, student_id := studentId, quiz_id := quizId,
            score := none, points_earned := none, total_points := none,
            started_at := now, submitted_at := none, duration_seconds := none,
            is_completed := false }
        let db' : Db := { db with quiz_attempts := db.quiz_attempts ++ [attempt] }
        match db'.quiz_attempts.find? (fun a => a.id == newId) with
        | none => (db', .error .failedToCreateAttempt)
        | some a => (db', .ok a)

/-- Embedding of lines 155 to 172 of submitAnswer: decide correctness and
per-answer points from the selected option.  The source guards the lookup
with the JavaScript truthiness test if (selectedOptionId), so the null
option and the empty-string option both skip the lookup and yield
correctness false and points 0. -/
def evalSelection (db : Db) (question : Question) (questionId : String)
    (selectedOptionId : Option String) : Except Err (Bool × Nat) :=
  match selectedOptionId with
  | none => .ok (false, 0)
  | some oid =>
    if oid == "" then .ok (false, 0)
    else
      match db.answer_options.find? (fun o => o.id == oid) with
      | none => .error .optionNotInQuestion
      | some opt =>
        if opt.question_id != questionId then .error .optionNotInQuestion
        else .ok (opt.is_correct, if opt.is_correct then question.points else 0)

/-- Embedding of lines 174 to 201 of submitAnswer: the upsert.  If a row
for (attemptId, questionId) exists, every row with the id of that row is
updated in place (UPDATE ... WHERE id = ?); otherwise a fresh row is
appended. -/
def upsertAnswer (db : Db) (attemptId questionId : String)
    (selectedOptionId : Option String) (isCorrect : Bool) (pointsEarned : Nat)
    (newId : String) (now : Int) : Db :=
  match db.attempt_answers.find? (fun a =>
      a.attempt_id == attemptId && a.question_id == questionId) with
  | some existingAnswer =>
    { db with attempt_answers := db.attempt_answers.map (fun a =>
        if a.id == existingAnswer.id then
          { a with selected_option_id := selectedOptionId,
                   is_correct := isCorrect, points_earned := pointsEarned,
                   answered_at := now }
        else a) }
  | none =>
    { db with attempt_answers := db.attempt_answers ++
        [{ id := newId, attempt_id := attemptId, question_id := questionId,
           selected_option_id := selectedOptionId, is_correct := isCorrect,
           points_earned := pointsEarned, answered_at := now }] }

/-- Embedding of submitAnswer (attempt-service.ts lines 123 to 214), the
recordAnswer operation of the specification.  Note that the source takes
no studentId parameter: there is no ownership check on this path. -/
def submitAnswer (db : Db) (attemptId questionId : String)
    (selectedOptionId : Option String) (newId : String) (now : Int) :
    Db × Except Err AttemptAnswer :=
  match db.quiz_attempts.find? (fun a => a.id == attemptId) with
  | none => (db, .error .attemptNotFound)
  | some attempt =>
    if attempt.is_completed then (db, .error .attemptCompleted)
    else
      match db.questions.find? (fun q => q.id == questionId) with
      | none => (db, .error .questionNotInQuiz)
      | some question =>
        if question.quiz_id != attempt.quiz_id then
          (db, .error .questionNotInQuiz)
        else
          match evalSelection db question questionId selectedOptionId with
          | .error e => (db, .error e)
          | .ok (isCorrect, pointsEarned) =>
            match (upsertAnswer db attemptId questionId selectedOptionId
                isCorrect pointsEarned newId now).attempt_answers.find? (fun a =>
                a.attempt_id == attemptId && a.question_id == questionId) with
            | none => (upsertAnswer db attemptId questionId selectedOptionId
                isCorrect pointsEarned newId now, .error .failedToSaveAnswer)
            | some answer => (upsertAnswer db attemptId questionId
                selectedOptionId isCorrect pointsEarned newId now, .ok answer)

/-- Embedding of the scoring query of submitQuizAttempt (lines 246 to 258):
the rows produced by LEFT JOIN of the questions of the quiz with the
answers of the attempt, each row carrying (q.points, aa.points_earned)
with the missing side of the join contributing 0 through COALESCE. -/
def scoreRows (db : Db) (attemptId quizId : String) : List (Nat × Nat) :=
  (db.questions.filter (fun q => q.quiz_id == quizId)).flatMap (fun q =>
    match db.attempt_answers.filter (fun a =>
        a.question_id == q.id && a.attempt_id == attemptId) with
    | [] => [(q.points, 0)]
    | ans => ans.map (fun a => (q.points, a.points_earned)))

/-- SUM(q.points) over the joined rows (alias total_points in the query). -/
def total_points (db : Db) (attemptId quizId : String) : Nat :=
  ((scoreRows db attemptId quizId).map Prod.fst).sum

/-- SUM(aa.points_earned) over the joined rows (alias points_earned). -/
def points_earned (db : Db) (attemptId quizId : String) : Nat :=
  ((scoreRows db attemptId quizId).map Prod.snd).sum

/-- Line 262 of submitQuizAttempt: the percentage score, guarded against a
zero denominator. -/
def scoreVal (db : Db) (attemptId quizId : String) : Rat :=
  if 0 < total_points db attemptId quizId then
    ((points_earned db attemptId quizId : Rat) /
      (total_points db attemptId quizId : Rat)) * 100
  else 0

/-- Lines 264 to 275 of submitQuizAttempt: compute duration as the floor of
the elapsed milliseconds over 1000, and UPDATE every quiz_attempts row
whose id matches, setting the scoring fields and the completion flag. -/
def finalizeAttempt (db : Db) (attemptId : String) (attempt : QuizAttempt)
    (now : Int) : Db :=
  { db with quiz_attempts := db.quiz_attempts.map (fun a =>
      if a.id == attemptId then
        { a with
            score := some (scoreVal db attemptId attempt.quiz_id),
            points_earned := some (points_earned db attemptId attempt.quiz_id),
            total_points := some (total_points db attemptId attempt.quiz_id),
            submitted_at := some now,
            duration_seconds := some ((now - attempt.started_at).fdiv 1000),
            is_completed := true }
      else a) }

/-- Embedding of submitQuizAttempt (attempt-service.ts lines 225 to 279).
The attempt lookup is scoped to (id, student_id); the scoring and the
UPDATE are finalizeAttempt; finally the attempt row is re-read through
getCompleteAttempt (lines 294 to 298), whose read-only enrichment join is
not needed by any claim and is omitted from the returned value. -/
def submitQuizAttempt (db : Db) (attemptId studentId : String) (now : Int) :
    Db × Except Err QuizAttempt :=
  match db.quiz_attempts.find? (fun a =>
      a.id == attemptId && a.student_id == studentId) with
  | none => (db, .error .attemptNotFoundOrAccessDenied)
  | some attempt =>
    if attempt.is_completed then (db, .error .attemptAlreadyCompleted)
    else
      match (finalizeAttempt db attemptId attempt now).quiz_attempts.find?
          (fun a => a.id == attemptId && a.student_id == studentId) with
      | none => (finalizeAttempt db attemptId attempt now,
          .error .attemptNotFoundOrAccessDenied)
      | some a => (finalizeAttempt db attemptId attempt now, .ok a)

/-- Embedding of abandonAttempt (attempt-service.ts lines 460 to 484).
The DELETE targets the quiz_attempts row; the attempt_answers rows of the
attempt disappear with it through the ON DELETE CASCADE foreign key of
the schema. -/
def abandonAttempt (db : Db) (attemptId studentId : String) :
    Db × Except Err Unit :=
  match db.quiz_attempts.find? (fun a =>
      a.id == attemptId && a.student_id == studentId) with
  | none => (db, .error .attemptNotFoundOrAccessDenied)
  | some attempt =>
    if attempt.is_completed then (db, .error .cannotAbandonCompleted)
    else
      ({ db with
          quiz_attempts := db.quiz_attempts.filter (fun a => !(a.id == attemptId)),
          attempt_answers := db.attempt_answers.filter (fun a =>
            !(a.attempt_id == attemptId)) },
       .ok ())

/-- Decidable equality of call results, for evaluating concrete runs. -/
instance exceptDecEq {ε α : Type} [DecidableEq ε] [DecidableEq α] :
    DecidableEq (Except ε α) := fun x y =>
  match x, y with
  | .error a, .error b =>
    if h : a = b then .isTrue (by rw [h])
    else .isFalse (fun hc => h (Except.error.inj hc))
  | .error _, .ok _ => .isFalse (fun hc => Except.noConfusion hc)
  | .ok _, .error _ => .isFalse (fun hc => Except.noConfusion hc)
  | .ok a, .ok b =>
    if h : a = b then .isTrue (by rw [h])
    else .isFalse (fun hc => h (Except.ok.inj hc))

/-- One recordAnswer request: the arguments of a submitAnswer call. -/
structure AnswerCall where
  attemptId : String
  questionId : String
  selectedOptionId : Option String
  newId : String
  now : Int

/-- Run a sequence of recordAnswer calls, keeping the database each call
leaves behind (failed calls leave it untouched). -/
def applyAnswers (db : Db) (calls : List AnswerCall) : Db :=
  calls.foldl (fun d c =>
    (submitAnswer d c.attemptId c.questionId c.selectedOptionId
      c.newId c.now).1) db

/-! ### Concrete data for witnesses

A two-question published quiz, one correct and one wrong option per
question, one student attempt.  These rows instantiate the scenario of
the specification (section 8): questions worth 5 points each, the first
answered correctly, the second untouched. -/

/-- Example quiz row. -/
def wQuiz : QuizRow := { id := "qz", is_published := true }

/-- Example question 1, worth 5 points. -/
def wQ1 : Question := { id := "q1", quiz_id := "qz", points := 5 }

/-- Example question 2, worth 5 points. -/
def wQ2 : Question := { id := "q2", quiz_id := "qz", points := 5 }

/-- Correct option of question 1. -/
def wO1a : AnswerOption := { id := "o1a", question_id := "q1", is_correct := true }

/-- Wrong option of question 1. -/
def wO1b : AnswerOption := { id := "o1b", question_id := "q1", is_correct := false }

/-- Correct option of question 2. -/
def wO2a : AnswerOption := { id := "o2a", question_id := "q2", is_correct := true }

/-- Wrong option of question 2. -/
def wO2b : AnswerOption := { id := "o2b", question_id := "q2", is_correct := false }

/-- Example in-progress attempt of student s1 on the quiz. -/
def wAttempt : QuizAttempt :=
  { id := "at", student_id := "s1", quiz_id := "qz", score := none,
    points_earned := none, total_points := none, started_at := 1000,
    submitted_at := none, duration_seconds := none, is_completed := false }

/-- Recorded answer: question 1 answered with the correct option. -/
def wAnswer1 : AttemptAnswer :=
  { id := "a1", attempt_id := "at", question_id := "q1",
    selected_option_id := some "o1a", is_correct := true, points_earned := 5,
    answered_at := 2000 }

/-- Store with the attempt started and no answer recorded yet. -/
def wDb0 : Db :=
  { quizzes := [wQuiz], questions := [wQ1, wQ2],
    answer_options := [wO1a, wO1b, wO2a, wO2b],
    quiz_attempts := [wAttempt], attempt_answers := [] }

/-- Store with question 1 answered correctly and question 2 untouched. -/
def wDb : Db :=
  { quizzes := [wQuiz], questions := [wQ1, wQ2],
    answer_options := [wO1a, wO1b, wO2a, wO2b],
    quiz_attempts := [wAttempt], attempt_answers := [wAnswer1] }

/-- Answer recorded when question 1 still weighed 10 points: together with
wQ1small this is the state an instructor edit of the weight leaves behind
after the answer was recorded under the old weight. -/
def wAnswerOldWeight : AttemptAnswer :=
  { id := "a1", attempt_id := "at", question_id := "q1",
    selected_option_id := some "o1a", is_correct := true,
    points_earned := 10, answered_at := 2000 }

/-- Question 1 after the instructor shrank its weight to 3. -/
def wQ1small : Question := { id := "q1", quiz_id := "qz", points := 3 }

/-- Row that submitAnswer records when handed the empty-string option id:
the JavaScript truthiness test treats it like null, so the row stores the
empty string as the selection with correctness false and zero points. -/
def wAnswerEmpty : AttemptAnswer :=
  { id := "aE", attempt_id := "at", question_id := "q1",
    selected_option_id := some "", is_correct := false, points_earned := 0,
    answered_at := 2100 }

/-- The edited store itself. -/
def wDbEdited : Db :=
  { quizzes := [wQuiz], questions := [wQ1small],
    answer_options := [wO1a, wO1b], quiz_attempts := [wAttempt],
    attempt_answers := [wAnswerOldWeight] }

/-! ### Invariants of the store

These predicates name facts that the schema (primary keys, foreign keys)
and the service itself maintain; the theorems take them as hypotheses. -/

/-- Primary key of the questions table: distinct ids. -/
abbrev QuestionIdsNodup (db : Db) : Prop := (db.questions.map Question.id).Nodup

/-- Primary key of the attempt_answers table: distinct ids. -/
abbrev AnswerIdsNodup (db : Db) : Prop :=
  (db.attempt_answers.map AttemptAnswer.id).Nodup

/-- Uniqueness of an answer per (attempt, question) pair, restricted to one
attempt: each question has at most one recorded answer for the attempt. -/
abbrev AttemptAnswersUnique (db : Db) (attemptId : String) : Prop :=
  ∀ q ∈ db.questions,
    (db.attempt_answers.filter (fun a =>
      a.question_id == q.id && a.attempt_id == attemptId)).length ≤ 1

/-- Every recorded answer of the attempt references a question of the given
quiz (submitAnswer validates this at recording time, and deleting a
question cascades onto its answers). -/
abbrev AnswersBelongToQuiz (db : Db) (attemptId quizId : String) : Prop :=
  ∀ a ∈ db.attempt_answers, a.attempt_id = attemptId →
    ∃ q ∈ db.questions, q.quiz_id = quizId ∧ q.id = a.question_id

/-- Every recorded answer earns at most the current weight of its question
(submitAnswer writes either 0 or the full current weight). -/
abbrev AnswerPointsBounded (db : Db) : Prop :=
  ∀ a ∈ db.attempt_answers, ∀ q ∈ db.questions, q.id = a.question_id →
    a.points_earned ≤ q.points

/-! ### Generic list helpers -/

/-- Find a witness for a successful find? from a satisfying member. -/
theorem find_exists {α : Type} {l : List α} {p : α → Bool} {x : α}
    (hx : x ∈ l) (hp : p x = true) :
    ∃ r, l.find? p = some r ∧ r ∈ l ∧ p r = true := by
  have hs : (l.find? p).isSome = true := List.find?_isSome.mpr ⟨x, hx, hp⟩
  rcases Option.isSome_iff_exists.mp hs with ⟨r, hr⟩
  exact ⟨r, hr, List.mem_of_find?_eq_some hr, List.find?_some hr⟩

/-- Sum of a map over a flatMap, grouped by the outer list. -/
theorem sum_map_flatMap {α β : Type} (l : List α) (f : α → List β)
    (g : β → Nat) :
    ((l.flatMap f).map g).sum = (l.map (fun a => ((f a).map g).sum)).sum := by
  induction l with
  | nil => simp
  | cons x xs ih => simp [List.flatMap_cons, ih]

/-- A filter of length at most one that contains x is exactly [x]. -/
theorem filter_eq_singleton_of_mem {α : Type} {l : List α} {p : α → Bool}
    {x : α} (hlen : (l.filter p).length ≤ 1) (hx : x ∈ l) (hp : p x = true) :
    l.filter p = [x] := by
  have hmem : x ∈ l.filter p := List.mem_filter.mpr ⟨hx, hp⟩
  match h : l.filter p with
  | [] => rw [h] at hmem; cases hmem
  | [y] =>
    rw [h] at hmem
    rw [List.mem_singleton.mp hmem]
  | y :: z :: rest => rw [h] at hlen; simp at hlen

/-- Count of the questions carrying a given id is one when the id occurs
and ids are distinct. -/
theorem countP_id_eq_one {qs : List Question} {x : String}
    (hnd : (qs.map Question.id).Nodup) (hex : ∃ q ∈ qs, q.id = x) :
    qs.countP (fun q => x == q.id) = 1 := by
  induction qs with
  | nil => rcases hex with ⟨q, hq, _⟩; cases hq
  | cons q qs' ih =>
    simp only [List.map_cons, List.nodup_cons] at hnd
    rw [List.countP_cons]
    by_cases hx : x = q.id
    · subst hx
      have hz : qs'.countP (fun r => q.id == r.id) = 0 := by
        apply List.countP_eq_zero.mpr
        intro r hr hxr
        have hmem : r.id ∈ qs'.map Question.id :=
          List.mem_map_of_mem Question.id hr
        rw [← beq_iff_eq.mp hxr] at hmem
        exact absurd hmem hnd.1
      simp [hz]
    · rcases hex with ⟨r, hr, hrx⟩
      rcases List.mem_cons.mp hr with rfl | hr'
      · exact absurd hrx.symm hx
      · have := ih hnd.2 ⟨r, hr', hrx⟩
        simp only [this]
        have hxq : (x == q.id) = false := beq_eq_false_iff_ne.mpr hx
        simp [hxq]

/-- Sum of a conditional increment over a list, in terms of countP. -/
theorem sum_ite_add (qs : List Question) (p : Question → Bool) (c : Nat)
    (f : Question → Nat) :
    (qs.map (fun q => if p q then c + f q else f q)).sum
      = c * qs.countP p + (qs.map f).sum := by
  induction qs with
  | nil => simp
  | cons q qs' ih =>
    by_cases hp : p q <;>
      simp [hp, ih, List.countP_cons, Nat.mul_add, Nat.mul_succ] <;> ring

/-- Summing the per-question fibers of an answer list recovers the sum over
the whole list, when every answer hits exactly one question. -/
theorem sum_fiber (qs : List Question) (l : List AttemptAnswer)
    (hc : ∀ a ∈ l, qs.countP (fun q => a.question_id == q.id) = 1) :
    (qs.map (fun q =>
      ((l.filter (fun a => a.question_id == q.id)).map
        AttemptAnswer.points_earned).sum)).sum
      = (l.map AttemptAnswer.points_earned).sum := by
  induction l with
  | nil => simp
  | cons a l' ih =>
    have hstep : ∀ q ∈ qs,
        (((a :: l').filter (fun x => x.question_id == q.id)).map
          AttemptAnswer.points_earned).sum
        = if (a.question_id == q.id) then
            a.points_earned +
              ((l'.filter (fun x => x.question_id == q.id)).map
                AttemptAnswer.points_earned).sum
          else ((l'.filter (fun x => x.question_id == q.id)).map
                AttemptAnswer.points_earned).sum := by
      intro q _
      by_cases h : (a.question_id == q.id) = true <;> simp [List.filter_cons, h]
    rw [List.map_congr_left hstep, sum_ite_add, hc a (List.mem_cons_self a l'),
      ih (fun x hx => hc x (List.mem_cons_of_mem a hx))]
    simp

/-- The SQL total_points reduces to the plain sum of the weights of the
questions of the quiz when each question has at most one recorded answer
for the attempt. -/
theorem total_points_eq (db : Db) (attemptId quizId : String)
    (hu : AttemptAnswersUnique db attemptId) :
    total_points db attemptId quizId
      = ((db.questions.filter (fun q => q.quiz_id == quizId)).map
          Question.points).sum := by
  unfold total_points scoreRows
  rw [sum_map_flatMap]
  refine congrArg List.sum (List.map_congr_left ?_)
  intro q hq
  have hq' : q ∈ db.questions := List.mem_of_mem_filter hq
  have hlen := hu q hq'
  cases h : db.attempt_answers.filter (fun a =>
      a.question_id == q.id && a.attempt_id == attemptId) with
  | nil => simp [h]
  | cons a tl =>
    rw [h] at hlen
    have htl : tl = [] := by
      cases tl with
      | nil => rfl
      | cons b tb => simp at hlen
    subst htl
    simp [h]

/-- The SQL points_earned reduces to the plain sum of the stored per-answer
points of the attempt when question ids are distinct and every answer of
the attempt references a question of the quiz. -/
theorem points_earned_eq (db : Db) (attemptId quizId : String)
    (hnd : QuestionIdsNodup db)
    (hb : AnswersBelongToQuiz db attemptId quizId) :
    points_earned db attemptId quizId
      = ((db.attempt_answers.filter (fun a => a.attempt_id == attemptId)).map
          AttemptAnswer.points_earned).sum := by
  unfold points_earned scoreRows
  rw [sum_map_flatMap]
  refine Eq.trans (congrArg List.sum (List.map_congr_left ?_))
    (sum_fiber (db.questions.filter (fun q => q.quiz_id == quizId))
      (db.attempt_answers.filter (fun a => a.attempt_id == attemptId)) ?_)
  · intro q _
    have hsw : (db.attempt_answers.filter
          (fun a => a.attempt_id == attemptId)).filter
          (fun a => a.question_id == q.id)
        = db.attempt_answers.filter (fun a =>
            a.question_id == q.id && a.attempt_id == attemptId) :=
      List.filter_filter _ _
    rw [← hsw]
    cases h : (db.attempt_answers.filter
        (fun a => a.attempt_id == attemptId)).filter
        (fun a => a.question_id == q.id) with
    | nil => simp [h]
    | cons a tl =>
      simp [h, List.map_map, Function.comp]
      exact congrArg List.sum (List.map_congr_left fun x _ => rfl)
  intro a ha
  have ha' : a ∈ db.attempt_answers := List.mem_of_mem_filter ha
  have hat : a.attempt_id = attemptId :=
    beq_iff_eq.mp (List.mem_filter.mp ha).2
  rcases hb a ha' hat with ⟨q, hq, hqz, hqid⟩
  have hqf : q ∈ db.questions.filter (fun x => x.quiz_id == quizId) :=
    List.mem_filter.mpr ⟨hq, beq_iff_eq.mpr hqz⟩
  have hndf : ((db.questions.filter (fun x => x.quiz_id == quizId)).map
      Question.id).Nodup :=
    ((List.filter_sublist db.questions).map Question.id).nodup hnd
  exact countP_id_eq_one hndf ⟨q, hqf, hqid⟩

/-- Each question of the quiz contributes at least its full weight to the
SQL total_points of an attempt on the quiz. -/
theorem le_total_points (db : Db) (attemptId quizId : String) (q : Question)
    (hq : q ∈ db.questions) (hqz : q.quiz_id = quizId) :
    q.points ≤ total_points db attemptId quizId := by
  unfold total_points scoreRows
  rw [sum_map_flatMap]
  have hqf : q ∈ db.questions.filter (fun x => x.quiz_id == quizId) :=
    List.mem_filter.mpr ⟨hq, beq_iff_eq.mpr hqz⟩
  refine le_trans ?_ (List.single_le_sum (fun x _ => Nat.zero_le x) _
    (List.mem_map_of_mem _ hqf))
  cases h : db.attempt_answers.filter (fun a =>
      a.question_id == q.id && a.attempt_id == attemptId) with
  | nil => simp [h]
  | cons a tl =>
    simp only [h, List.map_map]
    simp [Function.comp]

/-- The SQL points_earned never exceeds the SQL total_points when every
stored answer earns at most the current weight of its question. -/
theorem points_earned_le_total (db : Db) (attemptId quizId : String)
    (hb : AnswerPointsBounded db) :
    points_earned db attemptId quizId ≤ total_points db attemptId quizId := by
  unfold points_earned total_points
  apply List.sum_le_sum
  intro r hr
  rcases List.mem_flatMap.mp hr with ⟨q, hq, hrq⟩
  have hqm : q ∈ db.questions := List.mem_of_mem_filter hq
  cases h : db.attempt_answers.filter (fun a =>
      a.question_id == q.id && a.attempt_id == attemptId) with
  | nil =>
    rw [h] at hrq
    simp at hrq
    rw [hrq]
    exact Nat.zero_le _
  | cons a tl =>
    rw [h] at hrq
    rcases List.mem_map.mp hrq with ⟨a', ha', rfl⟩
    have hfl : a' ∈ db.attempt_answers.filter (fun x =>
        x.question_id == q.id && x.attempt_id == attemptId) := by
      rw [h]; exact ha'
    have ha'' : a' ∈ db.attempt_answers := List.mem_of_mem_filter hfl
    have hqid : a'.question_id = q.id := by
      have hpred := (List.mem_filter.mp hfl).2
      rw [Bool.and_eq_true] at hpred
      exact beq_iff_eq.mp hpred.1
    exact hb a' ha'' q hqm hqid.symm

/-! ### Structure of submitAnswer -/

@[simp]
theorem upsertAnswer_questions (db : Db) (A Q : String) (sel : Option String)
    (c : Bool) (p : Nat) (nid : String) (t : Int) :
    (upsertAnswer db A Q sel c p nid t).questions = db.questions := by
  unfold upsertAnswer; split <;> rfl

@[simp]
theorem upsertAnswer_quizzes (db : Db) (A Q : String) (sel : Option String)
    (c : Bool) (p : Nat) (nid : String) (t : Int) :
    (upsertAnswer db A Q sel c p nid t).quizzes = db.quizzes := by
  unfold upsertAnswer; split <;> rfl

@[simp]
theorem upsertAnswer_answer_options (db : Db) (A Q : String)
    (sel : Option String) (c : Bool) (p : Nat) (nid : String) (t : Int) :
    (upsertAnswer db A Q sel c p nid t).answer_options = db.answer_options := by
  unfold upsertAnswer; split <;> rfl

@[simp]
theorem upsertAnswer_quiz_attempts (db : Db) (A Q : String)
    (sel : Option String) (c : Bool) (p : Nat) (nid : String) (t : Int) :
    (upsertAnswer db A Q sel c p nid t).quiz_attempts = db.quiz_attempts := by
  unfold upsertAnswer; split <;> rfl

/-- The re-read of the (attempt, question) row after the upsert always
finds a row: the inserted row matches, and the update keeps the key
fields of the matching row. -/
theorem upsertAnswer_find_key_isSome (db : Db) (A Q : String)
    (sel : Option String) (c : Bool) (p : Nat) (nid : String) (t : Int) :
    ((upsertAnswer db A Q sel c p nid t).attempt_answers.find?
      (fun a => a.attempt_id == A && a.question_id == Q)).isSome = true := by
  unfold upsertAnswer
  cases hex : db.attempt_answers.find? (fun a =>
      a.attempt_id == A && a.question_id == Q) with
  | none =>
    simp only [hex]
    apply List.find?_isSome.mpr
    refine ⟨_, List.mem_append_right _ (List.mem_singleton_self _), ?_⟩
    simp
  | some ex =>
    simp only [hex]
    have hpred := List.find?_some hex
    have hmem := List.mem_of_find?_eq_some hex
    apply List.find?_isSome.mpr
    refine ⟨_, List.mem_map_of_mem _ hmem, ?_⟩
    simpa using hpred

/-- A successful submitAnswer decomposes into the validated lookups, the
selection evaluation, and the upsert, and returns the re-read row. -/
theorem submitAnswer_ok_spec {db : Db} {A Q : String} {sel : Option String}
    {nid : String} {t : Int} {r : AttemptAnswer}
    (h : (submitAnswer db A Q sel nid t).2 = .ok r) :
    ∃ attempt question c p,
      db.quiz_attempts.find? (fun a => a.id == A) = some attempt ∧
      attempt.is_completed = false ∧
      db.questions.find? (fun q => q.id == Q) = some question ∧
      question.quiz_id = attempt.quiz_id ∧
      evalSelection db question Q sel = .ok (c, p) ∧
      (submitAnswer db A Q sel nid t).1 = upsertAnswer db A Q sel c p nid t ∧
      (upsertAnswer db A Q sel c p nid t).attempt_answers.find?
        (fun a => a.attempt_id == A && a.question_id == Q) = some r := by
  unfold submitAnswer at h
  split at h
  · simp at h
  next attempt hfa =>
    split at h
    · simp at h
    next hcomp =>
      split at h
      · simp at h
      next question hfq =>
        split at h
        · simp at h
        next hqz =>
          split at h
          · simp at h
          next c p hev =>
            split at h
            · simp at h
            next ans hre =>
              simp only [Except.ok.injEq] at h
              subst h
              have hcompute : submitAnswer db A Q sel nid t
                  = (upsertAnswer db A Q sel c p nid t, .ok ans) := by
                unfold submitAnswer
                simp only [hfa, hfq, hev, hre, if_neg hcomp, if_neg hqz]
              refine ⟨attempt, question, c, p, hfa, by simpa using hcomp,
                hfq, by simpa using hqz, hev, ?_, hre⟩
              rw [hcompute]

/-- A failing submitAnswer leaves the database exactly as it was: every
throw happens before the upsert, and the only throw situated after the
upsert (the failed re-read) cannot occur. -/
theorem submitAnswer_error_unchanged {db : Db} {A Q : String}
    {sel : Option String} {nid : String} {t : Int} {e : Err}
    (h : (submitAnswer db A Q sel nid t).2 = .error e) :
    (submitAnswer db A Q sel nid t).1 = db := by
  unfold submitAnswer at h ⊢
  split at h
  next hfa => simp only [hfa]
  next attempt hfa =>
    split at h
    next hcomp => simp only [hfa, if_pos hcomp]
    next hcomp =>
      split at h
      next hfq => simp only [hfa, if_neg hcomp, hfq]
      next question hfq =>
        split at h
        next hqz => simp only [hfa, if_neg hcomp, hfq, if_pos hqz]
        next hqz =>
          split at h
          next e' hev => simp only [hfa, if_neg hcomp, hfq, if_neg hqz, hev]
          next c p hev =>
            split at h
            next hre =>
              have hs := upsertAnswer_find_key_isSome db A Q sel c p nid t
              rw [hre] at hs
              simp at hs
            next ans hre => simp at h

/-- The database after submitAnswer is either unchanged or the result of
the upsert with the evaluated selection. -/
theorem submitAnswer_fst_cases (db : Db) (A Q : String) (sel : Option String)
    (nid : String) (t : Int) :
    (submitAnswer db A Q sel nid t).1 = db ∨
    ∃ question c p,
      db.questions.find? (fun q => q.id == Q) = some question ∧
      evalSelection db question Q sel = .ok (c, p) ∧
      (submitAnswer db A Q sel nid t).1 = upsertAnswer db A Q sel c p nid t := by
  cases hr : (submitAnswer db A Q sel nid t).2 with
  | error e => exact Or.inl (submitAnswer_error_unchanged hr)
  | ok r =>
    rcases submitAnswer_ok_spec hr with ⟨att, q, c, p, _, _, hfq, _, hev, hfst, _⟩
    exact Or.inr ⟨q, c, p, hfq, hev, hfst⟩

@[simp]
theorem submitAnswer_fst_questions (db : Db) (A Q : String)
    (sel : Option String) (nid : String) (t : Int) :
    (submitAnswer db A Q sel nid t).1.questions = db.questions := by
  rcases submitAnswer_fst_cases db A Q sel nid t with h | ⟨q, c, p, _, _, h⟩
  · rw [h]
  · rw [h, upsertAnswer_questions]

@[simp]
theorem submitAnswer_fst_quizzes (db : Db) (A Q : String)
    (sel : Option String) (nid : String) (t : Int) :
    (submitAnswer db A Q sel nid t).1.quizzes = db.quizzes := by
  rcases submitAnswer_fst_cases db A Q sel nid t with h | ⟨q, c, p, _, _, h⟩
  · rw [h]
  · rw [h, upsertAnswer_quizzes]

@[simp]
theorem submitAnswer_fst_answer_options (db : Db) (A Q : String)
    (sel : Option String) (nid : String) (t : Int) :
    (submitAnswer db A Q sel nid t).1.answer_options = db.answer_options := by
  rcases submitAnswer_fst_cases db A Q sel nid t with h | ⟨q, c, p, _, _, h⟩
  · rw [h]
  · rw [h, upsertAnswer_answer_options]

@[simp]
theorem submitAnswer_fst_quiz_attempts (db : Db) (A Q : String)
    (sel : Option String) (nid : String) (t : Int) :
    (submitAnswer db A Q sel nid t).1.quiz_attempts = db.quiz_attempts := by
  rcases submitAnswer_fst_cases db A Q sel nid t with h | ⟨q, c, p, _, _, h⟩
  · rw [h]
  · rw [h, upsertAnswer_quiz_attempts]

/-- The selection evaluation never awards more than the full current
weight of the question. -/
theorem evalSelection_points_le {db : Db} {question : Question} {Q : String}
    {sel : Option String} {c : Bool} {p : Nat}
    (h : evalSelection db question Q sel = .ok (c, p)) :
    p ≤ question.points := by
  unfold evalSelection at h
  split at h
  · simp at h; omega
  · split at h
    · simp at h; omega
    · split at h
      · simp at h
      · split at h
        · simp at h
        · simp only [Except.ok.injEq, Prod.mk.injEq] at h
          rcases h with ⟨_, hp⟩
          rw [← hp]
          split <;> omega

/-- After the upsert there is exactly one row for the (attempt, question)
key, and it carries the just-written fields, provided the key was unique
before the call. -/
theorem upsertAnswer_filter_key (db : Db) (A Q : String) (sel : Option String)
    (c : Bool) (p : Nat) (nid : String) (t : Int)
    (hu : (db.attempt_answers.filter (fun a =>
        a.attempt_id == A && a.question_id == Q)).length ≤ 1) :
    ∃ w, (upsertAnswer db A Q sel c p nid t).attempt_answers.filter
        (fun a => a.attempt_id == A && a.question_id == Q) = [w] ∧
      w.attempt_id = A ∧ w.question_id = Q ∧ w.selected_option_id = sel ∧
      w.is_correct = c ∧ w.points_earned = p ∧ w.answered_at = t := by
  unfold upsertAnswer
  cases hex : db.attempt_answers.find? (fun a =>
      a.attempt_id == A && a.question_id == Q) with
  | none =>
    simp only [hex]
    have hnil : db.attempt_answers.filter (fun a =>
        a.attempt_id == A && a.question_id == Q) = [] :=
      List.filter_eq_nil_iff.mpr (List.find?_eq_none.mp hex)
    rw [List.filter_append, hnil]
    refine ⟨{ id := nid, attempt_id := A, question_id := Q,
              selected_option_id := sel, is_correct := c, points_earned := p,
              answered_at := t }, ?_, rfl, rfl, rfl, rfl, rfl, rfl⟩
    simp
  | some ex =>
    simp only [hex]
    have hpred := List.find?_some hex
    have hmem := List.mem_of_find?_eq_some hex
    rw [List.filter_map]
    have hcong : db.attempt_answers.filter ((fun a =>
          a.attempt_id == A && a.question_id == Q) ∘ (fun a =>
            if a.id == ex.id then
              { a with selected_option_id := sel, is_correct := c,
                       points_earned := p, answered_at := t }
            else a))
        = db.attempt_answers.filter (fun a =>
            a.attempt_id == A && a.question_id == Q) := by
      apply List.filter_congr
      intro x _
      by_cases hx : (x.id == ex.id) = true <;> simp [hx, Function.comp]
    rw [hcong, filter_eq_singleton_of_mem hu hmem hpred]
    refine ⟨{ id := ex.id, attempt_id := ex.attempt_id,
              question_id := ex.question_id, selected_option_id := sel,
              is_correct := c, points_earned := p, answered_at := t },
      ?_, ?_, ?_, rfl, rfl, rfl, rfl⟩
    · simp
    · rw [Bool.and_eq_true] at hpred
      exact beq_iff_eq.mp hpred.1
    · rw [Bool.and_eq_true] at hpred
      exact beq_iff_eq.mp hpred.2

/-- Every row after the upsert is either an untouched old row or carries
the just-written key and points (the update touches only the unique row
holding the key, thanks to the primary key on answer ids). -/
theorem mem_upsert_cases {db : Db} {A Q : String} {sel : Option String}
    {c : Bool} {p : Nat} {nid : String} {t : Int} {r : AttemptAnswer}
    (hnd : AnswerIdsNodup db)
    (hr : r ∈ (upsertAnswer db A Q sel c p nid t).attempt_answers) :
    r ∈ db.attempt_answers ∨
    (r.attempt_id = A ∧ r.question_id = Q ∧ r.points_earned = p) := by
  unfold upsertAnswer at hr
  cases hex : db.attempt_answers.find? (fun a =>
      a.attempt_id == A && a.question_id == Q) with
  | none =>
    rw [hex] at hr
    simp only at hr
    rcases List.mem_append.mp hr with hold | hnew
    · exact Or.inl hold
    · rw [List.mem_singleton.mp hnew]
      exact Or.inr ⟨rfl, rfl, rfl⟩
  | some ex =>
    rw [hex] at hr
    simp only at hr
    rcases List.mem_map.mp hr with ⟨a, ha, rfl⟩
    by_cases hx : (a.id == ex.id) = true
    · have hae : a = ex :=
        List.inj_on_of_nodup_map hnd ha (List.mem_of_find?_eq_some hex)
          (beq_iff_eq.mp hx)
      subst hae
      have hpred := List.find?_some hex
      rw [Bool.and_eq_true] at hpred
      rw [if_pos hx]
      exact Or.inr ⟨beq_iff_eq.mp hpred.1, beq_iff_eq.mp hpred.2, rfl⟩
    · simp only [hx, if_false]
      exact Or.inl ha

/-- The upsert either keeps the list of answer ids or appends the fresh
one (insert case). -/
theorem upsertAnswer_ids (db : Db) (A Q : String) (sel : Option String)
    (c : Bool) (p : Nat) (nid : String) (t : Int) :
    ((upsertAnswer db A Q sel c p nid t).attempt_answers.map
        AttemptAnswer.id) = db.attempt_answers.map AttemptAnswer.id ∨
    ((upsertAnswer db A Q sel c p nid t).attempt_answers.map
        AttemptAnswer.id)
      = db.attempt_answers.map AttemptAnswer.id ++ [nid] := by
  unfold upsertAnswer
  cases hex : db.attempt_answers.find? (fun a =>
      a.attempt_id == A && a.question_id == Q) with
  | none =>
    right
    simp
  | some ex =>
    left
    simp only [List.map_map]
    apply List.map_congr_left
    intro a _
    by_cases hx : (a.id == ex.id) = true <;> simp [hx, Function.comp]

/-- submitAnswer writes per-answer points of at most the current weight of
the question, so the bound invariant survives the call. -/
theorem submitAnswer_preserves_bounded {db : Db} {A Q : String}
    {sel : Option String} {nid : String} {t : Int}
    (hndq : QuestionIdsNodup db) (hnda : AnswerIdsNodup db)
    (hb : AnswerPointsBounded db) :
    AnswerPointsBounded (submitAnswer db A Q sel nid t).1 := by
  rcases submitAnswer_fst_cases db A Q sel nid t with h | ⟨question, c, p, hfq, hev, h⟩
  · rw [h]; exact hb
  · rw [h]
    intro r hr q hq hid
    rw [upsertAnswer_questions] at hq
    rcases mem_upsert_cases hnda hr with hold | ⟨_, hqid, hpe⟩
    · exact hb r hold q hq hid
    · have hple : p ≤ question.points := evalSelection_points_le hev
      have hqQ : q.id = Q := by rw [hid, hqid]
      have hqeq : q = question := by
        have hqm := List.mem_of_find?_eq_some hfq
        have hqpred := List.find?_some hfq
        exact List.inj_on_of_nodup_map hndq hq hqm
          (by rw [hqQ, beq_iff_eq.mp hqpred])
      rw [hpe, hqeq]
      exact hple

/-- A single call preserves the points bound and consumes at most its own
fresh id. -/
theorem submitAnswer_preserves_inv (db : Db) (A Q : String)
    (sel : Option String) (nid : String) (t : Int)
    (fresh : List String)
    (hndq : QuestionIdsNodup db) (hb : AnswerPointsBounded db)
    (hfr : ((db.attempt_answers.map AttemptAnswer.id) ++ nid :: fresh).Nodup) :
    AnswerPointsBounded (submitAnswer db A Q sel nid t).1 ∧
    (((submitAnswer db A Q sel nid t).1.attempt_answers.map
        AttemptAnswer.id) ++ fresh).Nodup := by
  have hnda : AnswerIdsNodup db := List.Nodup.of_append_left hfr
  have hsub : ((db.attempt_answers.map AttemptAnswer.id) ++ fresh).Sublist
      ((db.attempt_answers.map AttemptAnswer.id) ++ nid :: fresh) :=
    List.Sublist.append_left (List.sublist_cons_self nid fresh) _
  refine ⟨submitAnswer_preserves_bounded hndq hnda hb, ?_⟩
  rcases submitAnswer_fst_cases db A Q sel nid t with h | ⟨question, c, p, _, _, h⟩
  · rw [h]
    exact List.Nodup.sublist hsub hfr
  · rw [h]
    rcases upsertAnswer_ids db A Q sel c p nid t with hid | hid
    · rw [hid]
      exact List.Nodup.sublist hsub hfr
    · rw [hid, List.append_assoc, List.singleton_append]
      exact hfr

/-- Any sequence of recordAnswer calls with fresh generated ids keeps the
points bound and never touches the questions table. -/
theorem applyAnswers_inv (db0 : Db) (calls : List AnswerCall)
    (hndq : QuestionIdsNodup db0) (hb : AnswerPointsBounded db0)
    (hfr : ((db0.attempt_answers.map AttemptAnswer.id)
      ++ calls.map AnswerCall.newId).Nodup) :
    AnswerPointsBounded (applyAnswers db0 calls) ∧
    (applyAnswers db0 calls).questions = db0.questions := by
  induction calls generalizing db0 with
  | nil => exact ⟨hb, rfl⟩
  | cons c rest ih =>
    have hstep := submitAnswer_preserves_inv db0 c.attemptId c.questionId
      c.selectedOptionId c.newId c.now (rest.map AnswerCall.newId)
      hndq hb (by simpa using hfr)
    have hq : (submitAnswer db0 c.attemptId c.questionId c.selectedOptionId
        c.newId c.now).1.questions = db0.questions :=
      submitAnswer_fst_questions db0 c.attemptId c.questionId
        c.selectedOptionId c.newId c.now
    have hndq' : QuestionIdsNodup (submitAnswer db0 c.attemptId c.questionId
        c.selectedOptionId c.newId c.now).1 := by
      unfold QuestionIdsNodup
      rw [hq]
      exact hndq
    have hrec := ih _ hndq' hstep.1 hstep.2
    exact ⟨hrec.1, hrec.2.trans hq⟩

/-! ### Structure of submitQuizAttempt -/

/-- Every row of the finalized attempt list that carries the attempt id
carries the computed score, points, totals, timestamps and the completion
flag. -/
theorem finalize_mem_spec {db : Db} {A : String} {attempt : QuizAttempt}
    {now : Int} {r : QuizAttempt}
    (hr : r ∈ (finalizeAttempt db A attempt now).quiz_attempts)
    (hid : r.id = A) :
    r.score = some (scoreVal db A attempt.quiz_id) ∧
    r.points_earned = some (points_earned db A attempt.quiz_id) ∧
    r.total_points = some (total_points db A attempt.quiz_id) ∧
    r.submitted_at = some now ∧
    r.duration_seconds = some ((now - attempt.started_at).fdiv 1000) ∧
    r.is_completed = true := by
  unfold finalizeAttempt at hr
  rcases List.mem_map.mp hr with ⟨a, _, rfl⟩
  by_cases h : (a.id == A) = true
  · rw [if_pos h]
    exact ⟨rfl, rfl, rfl, rfl, rfl, rfl⟩
  · rw [if_neg h] at hid ⊢
    exact absurd (beq_iff_eq.mpr hid) h

/-- When the owner holds an in-progress attempt, submitQuizAttempt
finalizes it and returns the re-read completed row. -/
theorem submitQuizAttempt_success {db : Db} {A sid : String} {now : Int}
    {attempt : QuizAttempt}
    (hfind : db.quiz_attempts.find? (fun a =>
      a.id == A && a.student_id == sid) = some attempt)
    (hcomp : attempt.is_completed = false) :
    ∃ att, submitQuizAttempt db A sid now
        = (finalizeAttempt db A attempt now, .ok att) ∧
      (finalizeAttempt db A attempt now).quiz_attempts.find?
        (fun a => a.id == A && a.student_id == sid) = some att := by
  have hpred := List.find?_some hfind
  have hmem := List.mem_of_find?_eq_some hfind
  rw [Bool.and_eq_true] at hpred
  have hex : ∃ x ∈ (finalizeAttempt db A attempt now).quiz_attempts,
      (x.id == A && x.student_id == sid) = true := by
    refine ⟨_, List.mem_map_of_mem _ hmem, ?_⟩
    rw [if_pos hpred.1]
    simp [hpred.1, hpred.2]
  have hsome := List.find?_isSome.mpr hex
  rcases Option.isSome_iff_exists.mp hsome with ⟨att, hatt⟩
  refine ⟨att, ?_, hatt⟩
  unfold submitQuizAttempt
  simp only [hfind, hcomp, Bool.false_eq_true, if_false, hatt]

/-- A successful submitQuizAttempt decomposes into the owner-scoped
lookup, the in-progress check and the finalizing update. -/
theorem submitQuizAttempt_ok_spec {db : Db} {A sid : String} {now : Int}
    {att : QuizAttempt}
    (h : (submitQuizAttempt db A sid now).2 = .ok att) :
    ∃ attempt,
      db.quiz_attempts.find? (fun a =>
        a.id == A && a.student_id == sid) = some attempt ∧
      attempt.is_completed = false ∧
      (submitQuizAttempt db A sid now).1 = finalizeAttempt db A attempt now ∧
      (finalizeAttempt db A attempt now).quiz_attempts.find?
        (fun a => a.id == A && a.student_id == sid) = some att := by
  unfold submitQuizAttempt at h
  split at h
  · simp at h
  next attempt hfind =>
    split at h
    next hcomp => simp at h
    next hcomp =>
      split at h
      next hre => simp at h
      next a hre =>
        simp only [Except.ok.injEq] at h
        subst h
        refine ⟨attempt, hfind, by simpa using hcomp, ?_, hre⟩
        have hcompute : submitQuizAttempt db A sid now
            = (finalizeAttempt db A attempt now, .ok a) := by
          unfold submitQuizAttempt
          simp only [hfind, if_neg hcomp, hre]
        rw [hcompute]

/-- Looking up the finalized list by attempt id alone finds a completed
row, as soon as some finalized row carries the id. -/
theorem finalize_find_by_id {db : Db} {A : String} {attempt : QuizAttempt}
    {now : Int}
    (hex : ∃ x ∈ (finalizeAttempt db A attempt now).quiz_attempts,
      (x.id == A) = true) :
    ∃ r, (finalizeAttempt db A attempt now).quiz_attempts.find?
        (fun a => a.id == A) = some r ∧ r.is_completed = true := by
  rcases hex with ⟨x, hx, hpx⟩
  rcases find_exists (p := fun a => a.id == A) hx hpx with ⟨r, hfr, hrmem, hrpred⟩
  exact ⟨r, hfr, (finalize_mem_spec hrmem (beq_iff_eq.mp hrpred)).2.2.2.2.2⟩

/-! ### Bounds on the computed score -/

/-- The computed score is never negative. -/
theorem scoreVal_nonneg (db : Db) (attemptId quizId : String) :
    0 ≤ scoreVal db attemptId quizId := by
  unfold scoreVal
  split
  · positivity
  · exact le_refl 0

/-- The computed score never exceeds 100 when stored per-answer points stay
below the current weights. -/
theorem scoreVal_le_100 (db : Db) (attemptId quizId : String)
    (hb : AnswerPointsBounded db) :
    scoreVal db attemptId quizId ≤ 100 := by
  unfold scoreVal
  split
  next h =>
    have hle := points_earned_le_total db attemptId quizId hb
    have h1 : ((points_earned db attemptId quizId : Rat) /
        (total_points db attemptId quizId : Rat)) ≤ 1 := by
      rw [div_le_one (by exact_mod_cast h)]
      exact_mod_cast hle
    calc ((points_earned db attemptId quizId : Rat) /
          (total_points db attemptId quizId : Rat)) * 100
        ≤ 1 * 100 := by
          exact mul_le_mul_of_nonneg_right h1 (by norm_num)
      _ = 100 := by norm_num
  next => norm_num

/-- The computed score is zero for a zero total. -/
theorem scoreVal_eq_zero (db : Db) (attemptId quizId : String)
    (h : total_points db attemptId quizId = 0) :
    scoreVal db attemptId quizId = 0 := by
  unfold scoreVal
  rw [h]
  simp

/-- When the attempt is in progress and the question and selection are
valid, submitAnswer performs the upsert and returns the re-read row. -/
theorem submitAnswer_success {db : Db} {A Q : String} {sel : Option String}
    (nid : String) (t : Int) {attempt : QuizAttempt} {question : Question}
    {c : Bool} {p : Nat}
    (hfa : db.quiz_attempts.find? (fun a => a.id == A) = some attempt)
    (hcomp : attempt.is_completed = false)
    (hfq : db.questions.find? (fun q => q.id == Q) = some question)
    (hqz : question.quiz_id = attempt.quiz_id)
    (hev : evalSelection db question Q sel = .ok (c, p)) :
    ∃ r, submitAnswer db A Q sel nid t
        = (upsertAnswer db A Q sel c p nid t, .ok r) ∧
      (upsertAnswer db A Q sel c p nid t).attempt_answers.find? (fun a =>
        a.attempt_id == A && a.question_id == Q) = some r := by
  have hsome := upsertAnswer_find_key_isSome db A Q sel c p nid t
  rcases Option.isSome_iff_exists.mp hsome with ⟨r, hr⟩
  refine ⟨r, ?_, hr⟩
  have h1 : ¬(attempt.is_completed = true) := by simp [hcomp]
  have h2 : ¬((question.quiz_id != attempt.quiz_id) = true) := by simp [hqz]
  unfold submitAnswer
  simp only [hfa, if_neg h1, hfq, if_neg h2, hev, hr]

/-- evalSelection reads only the answer_options table. -/
theorem evalSelection_options_eq {db db' : Db}
    (h : db'.answer_options = db.answer_options) (question : Question)
    (Q : String) (sel : Option String) :
    evalSelection db' question Q sel = evalSelection db question Q sel := by
  unfold evalSelection
  rw [h]

/-! ### The claims -/

/-- C1: for every attempt that exists, belongs to the calling student and
is not completed, submitAttempt computes total_points as the sum of the
point weights of every question currently belonging to the quiz of the
attempt (answered or not), points_earned as the sum of the stored
points-earned values of all recorded answers of the attempt, and score as
points_earned / total_points * 100 when total_points > 0 and 0 otherwise,
and stores these values on the attempt. -/
theorem C1_submitAttempt_scoring (db : Db) (A sid : String) (now : Int)
    (attempt : QuizAttempt)
    (hfind : db.quiz_attempts.find? (fun a =>
      a.id == A && a.student_id == sid) = some attempt)
    (hcomp : attempt.is_completed = false)
    (hndq : QuestionIdsNodup db)
    (hu : AttemptAnswersUnique db A)
    (hbel : AnswersBelongToQuiz db A attempt.quiz_id) :
    ∃ att,
      (submitQuizAttempt db A sid now).2 = .ok att ∧
      att.total_points = some (((db.questions.filter (fun q =>
        q.quiz_id == attempt.quiz_id)).map Question.points).sum) ∧
      att.points_earned = some (((db.attempt_answers.filter (fun a =>
        a.attempt_id == A)).map AttemptAnswer.points_earned).sum) ∧
      att.score = some (
        if 0 < ((db.questions.filter (fun q =>
            q.quiz_id == attempt.quiz_id)).map Question.points).sum then
          ((((db.attempt_answers.filter (fun a =>
              a.attempt_id == A)).map AttemptAnswer.points_earned).sum : Rat) /
            (((db.questions.filter (fun q =>
              q.quiz_id == attempt.quiz_id)).map Question.points).sum : Rat))
            * 100
        else 0) ∧
      ∀ r ∈ (submitQuizAttempt db A sid now).1.quiz_attempts, r.id = A →
        r.total_points = some (((db.questions.filter (fun q =>
            q.quiz_id == attempt.quiz_id)).map Question.points).sum) ∧
          r.points_earned = some (((db.attempt_answers.filter (fun a =>
            a.attempt_id == A)).map AttemptAnswer.points_earned).sum) ∧
          r.is_completed = true := by
  rcases submitQuizAttempt_success hfind hcomp with ⟨att, heq, hatt⟩
  have htp := total_points_eq db A attempt.quiz_id hu
  have hpe := points_earned_eq db A attempt.quiz_id hndq hbel
  have hsc : scoreVal db A attempt.quiz_id
      = (if 0 < ((db.questions.filter (fun q =>
            q.quiz_id == attempt.quiz_id)).map Question.points).sum then
          ((((db.attempt_answers.filter (fun a =>
              a.attempt_id == A)).map AttemptAnswer.points_earned).sum : Rat) /
            (((db.questions.filter (fun q =>
              q.quiz_id == attempt.quiz_id)).map Question.points).sum : Rat))
            * 100
        else 0) := by
    unfold scoreVal
    rw [htp, hpe]
  have hattpred := List.find?_some hatt
  rw [Bool.and_eq_true] at hattpred
  have hspec := finalize_mem_spec (List.mem_of_find?_eq_some hatt)
    (beq_iff_eq.mp hattpred.1)
  refine ⟨att, by rw [heq], ?_, ?_, ?_, ?_⟩
  · rw [hspec.2.2.1, htp]
  · rw [hspec.2.1, hpe]
  · rw [hspec.1, hsc]
  · intro r hr hid
    have hr' : r ∈ (finalizeAttempt db A attempt now).quiz_attempts := by
      rw [heq] at hr
      exact hr
    have hspec' := finalize_mem_spec hr' hid
    exact ⟨by rw [hspec'.2.2.1, htp], by rw [hspec'.2.1, hpe],
      hspec'.2.2.2.2.2⟩

/-- Witness for C1: the scenario of specification section 8, two questions
worth 5 each, the first answered correctly, submitted at time 5000. -/
theorem C1_submitAttempt_scoring_witness :
    (wDb.quiz_attempts.find? (fun a =>
        a.id == "at" && a.student_id == "s1") = some wAttempt ∧
      wAttempt.is_completed = false ∧ QuestionIdsNodup wDb ∧
      AttemptAnswersUnique wDb "at" ∧
      AnswersBelongToQuiz wDb "at" wAttempt.quiz_id) ∧
    (∃ att,
      (submitQuizAttempt wDb "at" "s1" 5000).2 = .ok att ∧
      att.total_points = some (((wDb.questions.filter (fun q =>
        q.quiz_id == wAttempt.quiz_id)).map Question.points).sum) ∧
      att.points_earned = some (((wDb.attempt_answers.filter (fun a =>
        a.attempt_id == "at")).map AttemptAnswer.points_earned).sum) ∧
      att.score = some (
        if 0 < ((wDb.questions.filter (fun q =>
            q.quiz_id == wAttempt.quiz_id)).map Question.points).sum then
          ((((wDb.attempt_answers.filter (fun a =>
              a.attempt_id == "at")).map AttemptAnswer.points_earned).sum : Rat) /
            (((wDb.questions.filter (fun q =>
              q.quiz_id == wAttempt.quiz_id)).map Question.points).sum : Rat))
            * 100
        else 0) ∧
      ∀ r ∈ (submitQuizAttempt wDb "at" "s1" 5000).1.quiz_attempts,
        r.id = "at" →
        r.total_points = some (((wDb.questions.filter (fun q =>
            q.quiz_id == wAttempt.quiz_id)).map Question.points).sum) ∧
          r.points_earned = some (((wDb.attempt_answers.filter (fun a =>
            a.attempt_id == "at")).map AttemptAnswer.points_earned).sum) ∧
          r.is_completed = true) :=
  ⟨⟨by decide, by decide, by decide, by decide, by decide⟩,
    C1_submitAttempt_scoring wDb "at" "s1" 5000 wAttempt (by decide)
      (by decide) (by decide) (by decide) (by decide)⟩

/-- C2: once submitAttempt succeeds on an attempt, every further
recordAnswer call on the attempt fails with the completed-attempt error,
every further submitAttempt call by the owner fails with the
already-completed error, and both leave the database (hence the stored
score, points, totals, timestamps and completion flag) exactly as the
successful submission left it. -/
theorem C2_terminal_immutability (db : Db) (A sid : String) (now : Int)
    (attempt : QuizAttempt)
    (hfind : db.quiz_attempts.find? (fun a =>
      a.id == A && a.student_id == sid) = some attempt)
    (hcomp : attempt.is_completed = false) :
    ∃ att db',
      submitQuizAttempt db A sid now = (db', .ok att) ∧
      (∀ Q sel nid t,
        submitAnswer db' A Q sel nid t = (db', .error .attemptCompleted)) ∧
      (∀ now',
        submitQuizAttempt db' A sid now'
          = (db', .error .attemptAlreadyCompleted)) := by
  rcases submitQuizAttempt_success hfind hcomp with ⟨att, heq, hatt⟩
  have hattpred := List.find?_some hatt
  rw [Bool.and_eq_true] at hattpred
  have hattmem := List.mem_of_find?_eq_some hatt
  have hattc : att.is_completed = true :=
    (finalize_mem_spec hattmem (beq_iff_eq.mp hattpred.1)).2.2.2.2.2
  refine ⟨att, finalizeAttempt db A attempt now, heq, ?_, ?_⟩
  · intro Q sel nid t
    rcases finalize_find_by_id ⟨att, hattmem, hattpred.1⟩ with ⟨r, hfr, hrc⟩
    unfold submitAnswer
    simp only [hfr]
    rw [if_pos hrc]
  · intro now'
    unfold submitQuizAttempt
    simp only [hatt]
    rw [if_pos hattc]

/-- Witness for C2: submitting the example attempt at time 5000 and then
attempting further mutations. -/
theorem C2_terminal_immutability_witness :
    (wDb.quiz_attempts.find? (fun a =>
        a.id == "at" && a.student_id == "s1") = some wAttempt ∧
      wAttempt.is_completed = false) ∧
    (∃ att db',
      submitQuizAttempt wDb "at" "s1" 5000 = (db', .ok att) ∧
      (∀ Q sel nid t,
        submitAnswer db' "at" Q sel nid t
          = (db', .error .attemptCompleted)) ∧
      (∀ now',
        submitQuizAttempt db' "at" "s1" now'
          = (db', .error .attemptAlreadyCompleted))) :=
  ⟨⟨by decide, by decide⟩,
    C2_terminal_immutability wDb "at" "s1" 5000 wAttempt (by decide)
      (by decide)⟩

/-- C3: recording an answer for the same question twice leaves exactly one
answer row for the (attempt, question) key, and that row reflects the
second selection: its selected option is the second one and its
correctness and points are the ones the service computes from the second
selection. -/
theorem C3_overwrite_last_write_wins (db : Db) (A Q : String)
    (o1 o2 : Option String) (i1 i2 : String) (t1 t2 : Int)
    (attempt : QuizAttempt) (question : Question)
    (c1 : Bool) (p1 : Nat) (c2 : Bool) (p2 : Nat)
    (hu : (db.attempt_answers.filter (fun a =>
      a.attempt_id == A && a.question_id == Q)).length ≤ 1)
    (hfa : db.quiz_attempts.find? (fun a => a.id == A) = some attempt)
    (hcomp : attempt.is_completed = false)
    (hfq : db.questions.find? (fun q => q.id == Q) = some question)
    (hqz : question.quiz_id = attempt.quiz_id)
    (hev1 : evalSelection db question Q o1 = .ok (c1, p1))
    (hev2 : evalSelection db question Q o2 = .ok (c2, p2)) :
    ∃ r2,
      (submitAnswer (submitAnswer db A Q o1 i1 t1).1 A Q o2 i2 t2).2
        = .ok r2 ∧
      List.filter (fun a => a.attempt_id == A && a.question_id == Q)
        (submitAnswer (submitAnswer db A Q o1 i1 t1).1
          A Q o2 i2 t2).1.attempt_answers = [r2] ∧
      r2.selected_option_id = o2 ∧ r2.is_correct = c2 ∧
      r2.points_earned = p2 ∧ r2.answered_at = t2 := by
  rcases submitAnswer_success i1 t1 hfa hcomp hfq hqz hev1
    with ⟨r1, heq1, _⟩
  have hdb1 : (submitAnswer db A Q o1 i1 t1).1
      = upsertAnswer db A Q o1 c1 p1 i1 t1 := by rw [heq1]
  rcases upsertAnswer_filter_key db A Q o1 c1 p1 i1 t1 hu
    with ⟨w1, hw1, _⟩
  have hu1 : ((upsertAnswer db A Q o1 c1 p1 i1 t1).attempt_answers.filter
      (fun a => a.attempt_id == A && a.question_id == Q)).length ≤ 1 := by
    rw [hw1]
    exact le_refl 1
  have hfa1 : (upsertAnswer db A Q o1 c1 p1 i1 t1).quiz_attempts.find?
      (fun a => a.id == A) = some attempt := by
    rw [upsertAnswer_quiz_attempts]
    exact hfa
  have hfq1 : (upsertAnswer db A Q o1 c1 p1 i1 t1).questions.find?
      (fun q => q.id == Q) = some question := by
    rw [upsertAnswer_questions]
    exact hfq
  have hev2' : evalSelection (upsertAnswer db A Q o1 c1 p1 i1 t1) question Q o2
      = .ok (c2, p2) := by
    rw [evalSelection_options_eq (upsertAnswer_answer_options db A Q o1 c1 p1 i1 t1)]
    exact hev2
  rcases submitAnswer_success i2 t2 hfa1 hcomp hfq1 hqz hev2'
    with ⟨r2, heq2, hr2find⟩
  rcases upsertAnswer_filter_key (upsertAnswer db A Q o1 c1 p1 i1 t1)
      A Q o2 c2 p2 i2 t2 hu1
    with ⟨w2, hw2, _, _, hw2sel, hw2c, hw2p, hw2t⟩
  have hr2mem : r2 ∈ (upsertAnswer (upsertAnswer db A Q o1 c1 p1 i1 t1)
      A Q o2 c2 p2 i2 t2).attempt_answers.filter (fun a =>
        a.attempt_id == A && a.question_id == Q) :=
    List.mem_filter.mpr ⟨List.mem_of_find?_eq_some hr2find,
      List.find?_some (p := fun (a : AttemptAnswer) =>
        a.attempt_id == A && a.question_id == Q) hr2find⟩
  have hr2w2 : r2 = w2 := by
    rw [hw2] at hr2mem
    exact List.mem_singleton.mp hr2mem
  subst hr2w2
  refine ⟨r2, ?_, ?_, hw2sel, hw2c, hw2p, hw2t⟩
  · rw [hdb1, heq2]
  · rw [hdb1, heq2]
    exact hw2

/-- Witness for C3: answering question 1 with the correct option and then
overwriting with the wrong one. -/
theorem C3_overwrite_last_write_wins_witness :
    ((wDb0.attempt_answers.filter (fun a =>
        a.attempt_id == "at" && a.question_id == "q1")).length ≤ 1 ∧
      wDb0.quiz_attempts.find? (fun a => a.id == "at") = some wAttempt ∧
      wAttempt.is_completed = false ∧
      wDb0.questions.find? (fun q => q.id == "q1") = some wQ1 ∧
      wQ1.quiz_id = wAttempt.quiz_id ∧
      evalSelection wDb0 wQ1 "q1" (some "o1a") = .ok (true, 5) ∧
      evalSelection wDb0 wQ1 "q1" (some "o1b") = .ok (false, 0)) ∧
    (∃ r2,
      (submitAnswer (submitAnswer wDb0 "at" "q1" (some "o1a") "a1" 2000).1
        "at" "q1" (some "o1b") "a1x" 2500).2 = .ok r2 ∧
      List.filter (fun a => a.attempt_id == "at" && a.question_id == "q1")
        (submitAnswer (submitAnswer wDb0 "at" "q1" (some "o1a") "a1" 2000).1
          "at" "q1" (some "o1b") "a1x" 2500).1.attempt_answers = [r2] ∧
      r2.selected_option_id = some "o1b" ∧ r2.is_correct = false ∧
      r2.points_earned = 0 ∧ r2.answered_at = 2500) :=
  ⟨⟨by decide, by decide, by decide, by decide, by decide, by decide,
      by decide⟩,
    C3_overwrite_last_write_wins wDb0 "at" "q1" (some "o1a") (some "o1b")
      "a1" "a1x" 2000 2500 wAttempt wQ1 true 5 false 0 (by decide)
      (by decide) (by decide) (by decide) (by decide) (by decide)
      (by decide)⟩

/-- C4: on a published quiz, startAttempt fails with the conflict error
whenever an incomplete attempt of the same student on the same quiz
exists, and succeeds once every prior attempt of the pair is completed
(abandoned ones are deleted), creating an in-progress attempt; the new
state then holds exactly one in-progress attempt for the pair. -/
theorem C4_single_in_progress (db : Db) (sid qid nid : String) (now : Int)
    (quiz : QuizRow)
    (hq : db.quizzes.find? (fun q => q.id == qid) = some quiz)
    (hpub : quiz.is_published = true) :
    ((∃ inc ∈ db.quiz_attempts, inc.student_id = sid ∧ inc.quiz_id = qid ∧
        inc.is_completed = false) →
      startQuizAttempt db sid qid nid now
        = (db, .error .incompleteAttemptExists)) ∧
    ((∀ a ∈ db.quiz_attempts, a.student_id = sid → a.quiz_id = qid →
        a.is_completed = true) →
      (∀ a ∈ db.quiz_attempts, a.id ≠ nid) →
      ∃ att,
        startQuizAttempt db sid qid nid now
          = ({ db with quiz_attempts := db.quiz_attempts ++ [att] }, .ok att) ∧
        att.student_id = sid ∧ att.quiz_id = qid ∧
        att.is_completed = false ∧ att.score = none ∧
        att.submitted_at = none ∧ att.started_at = now ∧
        (db.quiz_attempts ++ [att]).countP (fun a =>
          a.student_id == sid && a.quiz_id == qid &&
          a.is_completed == false) = 1) := by
  have hnp : ¬((!quiz.is_published) = true) := by simp [hpub]
  constructor
  · rintro ⟨inc, hmem, h1, h2, h3⟩
    have hpred : (inc.student_id == sid && inc.quiz_id == qid &&
        inc.is_completed == false) = true := by
      simp [h1, h2, h3]
    unfold startQuizAttempt
    simp only [hq, if_neg hnp]
    cases hfind : db.quiz_attempts.find? (fun a =>
        a.student_id == sid && a.quiz_id == qid &&
        a.is_completed == false) with
    | none => exact absurd hpred (List.find?_eq_none.mp hfind inc hmem)
    | some x => simp only [hfind]
  · intro hall hfresh
    have hnone : db.quiz_attempts.find? (fun a =>
        a.student_id == sid && a.quiz_id == qid &&
        a.is_completed == false) = none := by
      apply List.find?_eq_none.mpr
      intro x hx hpred
      rw [Bool.and_eq_true, Bool.and_eq_true] at hpred
      have hcompl := hall x hx (beq_iff_eq.mp hpred.1.1)
        (beq_iff_eq.mp hpred.1.2)
      rw [hcompl] at hpred
      simp at hpred
    have hcount0 : db.quiz_attempts.countP (fun a =>
        a.student_id == sid && a.quiz_id == qid &&
        a.is_completed == false) = 0 :=
      List.countP_eq_zero.mpr (List.find?_eq_none.mp hnone)
    refine ⟨{ id := nid, student_id := sid, quiz_id := qid, score := none,
              points_earned := none, total_points := none, started_at := now,
              submitted_at := none, duration_seconds := none,
              is_completed := false }, ?_, rfl, rfl, rfl, rfl, rfl, rfl, ?_⟩
    · have hfnil : db.quiz_attempts.find? (fun a => a.id == nid) = none :=
        List.find?_eq_none.mpr (fun a ha hpa =>
          hfresh a ha (beq_iff_eq.mp hpa))
      unfold startQuizAttempt
      simp only [hq, if_neg hnp, hnone, List.find?_append, hfnil,
        Option.none_or, List.find?_cons]
      simp
    · rw [List.countP_append, hcount0]
      simp

/-- Witness for C4: the example store already holds an in-progress attempt
of student s1 on the quiz. -/
theorem C4_single_in_progress_witness :
    (wDb.quizzes.find? (fun q => q.id == "qz") = some wQuiz ∧
      wQuiz.is_published = true) ∧
    (((∃ inc ∈ wDb.quiz_attempts, inc.student_id = "s1" ∧
        inc.quiz_id = "qz" ∧ inc.is_completed = false) →
      startQuizAttempt wDb "s1" "qz" "at2" 7000
        = (wDb, .error .incompleteAttemptExists)) ∧
    ((∀ a ∈ wDb.quiz_attempts, a.student_id = "s1" → a.quiz_id = "qz" →
        a.is_completed = true) →
      (∀ a ∈ wDb.quiz_attempts, a.id ≠ "at2") →
      ∃ att,
        startQuizAttempt wDb "s1" "qz" "at2" 7000
          = ({ wDb with quiz_attempts := wDb.quiz_attempts ++ [att] },
              .ok att) ∧
        att.student_id = "s1" ∧ att.quiz_id = "qz" ∧
        att.is_completed = false ∧ att.score = none ∧
        att.submitted_at = none ∧ att.started_at = 7000 ∧
        (wDb.quiz_attempts ++ [att]).countP (fun a =>
          a.student_id == "s1" && a.quiz_id == "qz" &&
          a.is_completed == false) = 1)) :=
  ⟨⟨by decide, by decide⟩,
    C4_single_in_progress wDb "s1" "qz" "at2" 7000 wQuiz (by decide)
      (by decide)⟩

/-- C5 counterexample: the claim says every mutating operation, including
recordAnswer, verifies that the supplied studentId matches the owner of
the attempt and rejects a mismatch.  But submitAnswer takes no studentId
at all: the very same call any non-owner (for instance student s2, while
the attempt belongs to s1) would issue succeeds and records an answer
instead of failing. -/
theorem C5_counterexample :
    wAttempt.student_id = "s1" ∧ ("s2" : String) ≠ "s1" ∧
    (∀ a ∈ wDb0.quiz_attempts, a.student_id = "s1") ∧
    (submitAnswer wDb0 "at" "q1" (some "o1a") "a1" 2000).2 = .ok wAnswer1 ∧
    wAnswer1 ∈ (submitAnswer wDb0 "at" "q1" (some "o1a") "a1"
      2000).1.attempt_answers := by decide

/-- C5 amended: submitAttempt and abandonAttempt do verify ownership, by
scoping the attempt lookup to the calling student, and reject a mismatch
with the combined not-found/access-denied error; recordAnswer takes no
studentId and performs no ownership check. -/
theorem C5_amended_ownership_checks (db : Db) (A sid : String) (now : Int)
    (attempt : QuizAttempt)
    (hmem : attempt ∈ db.quiz_attempts) (hid : attempt.id = A)
    (hnd : (db.quiz_attempts.map QuizAttempt.id).Nodup)
    (hmismatch : attempt.student_id ≠ sid) :
    submitQuizAttempt db A sid now
      = (db, .error .attemptNotFoundOrAccessDenied) ∧
    abandonAttempt db A sid
      = (db, .error .attemptNotFoundOrAccessDenied) := by
  have hnone : db.quiz_attempts.find? (fun a =>
      a.id == A && a.student_id == sid) = none := by
    apply List.find?_eq_none.mpr
    intro x hx hpred
    rw [Bool.and_eq_true] at hpred
    have hxid : x.id = A := beq_iff_eq.mp hpred.1
    have hxeq : x = attempt :=
      List.inj_on_of_nodup_map hnd hx hmem (by rw [hxid, hid])
    rw [hxeq] at hpred
    exact hmismatch (beq_iff_eq.mp hpred.2)
  constructor
  · unfold submitQuizAttempt
    simp only [hnone]
  · unfold abandonAttempt
    simp only [hnone]

/-- Witness for the amended C5: student s2 calling on the attempt of s1. -/
theorem C5_amended_ownership_checks_witness :
    (wAttempt ∈ wDb0.quiz_attempts ∧ wAttempt.id = "at" ∧
      (wDb0.quiz_attempts.map QuizAttempt.id).Nodup ∧
      wAttempt.student_id ≠ "s2") ∧
    (submitQuizAttempt wDb0 "at" "s2" 5000
        = (wDb0, .error .attemptNotFoundOrAccessDenied) ∧
      abandonAttempt wDb0 "at" "s2"
        = (wDb0, .error .attemptNotFoundOrAccessDenied)) :=
  ⟨⟨by decide, by decide, by decide, by decide⟩,
    C5_amended_ownership_checks wDb0 "at" "s2" 5000 wAttempt (by decide)
      (by decide) (by decide) (by decide)⟩

/-- C10: for submitAttempt and abandonAttempt, a call with an attempt id
that does not exist and a call with an attempt owned by a different
student fail with one and the same combined not-found/access-denied
error, so the caller cannot tell the two situations apart. -/
theorem C10_missing_and_foreign_same_error (db : Db)
    (aidMissing aidOther sid : String) (now : Int)
    (hmissing : ∀ a ∈ db.quiz_attempts, a.id ≠ aidMissing)
    (hother : ∀ a ∈ db.quiz_attempts, a.id = aidOther →
      a.student_id ≠ sid) :
    submitQuizAttempt db aidMissing sid now
      = (db, .error .attemptNotFoundOrAccessDenied) ∧
    submitQuizAttempt db aidOther sid now
      = (db, .error .attemptNotFoundOrAccessDenied) ∧
    abandonAttempt db aidMissing sid
      = (db, .error .attemptNotFoundOrAccessDenied) ∧
    abandonAttempt db aidOther sid
      = (db, .error .attemptNotFoundOrAccessDenied) := by
  have hnone1 : db.quiz_attempts.find? (fun a =>
      a.id == aidMissing && a.student_id == sid) = none := by
    apply List.find?_eq_none.mpr
    intro x hx hpred
    rw [Bool.and_eq_true] at hpred
    exact hmissing x hx (beq_iff_eq.mp hpred.1)
  have hnone2 : db.quiz_attempts.find? (fun a =>
      a.id == aidOther && a.student_id == sid) = none := by
    apply List.find?_eq_none.mpr
    intro x hx hpred
    rw [Bool.and_eq_true] at hpred
    exact hother x hx (beq_iff_eq.mp hpred.1) (beq_iff_eq.mp hpred.2)
  refine ⟨?_, ?_, ?_, ?_⟩
  · unfold submitQuizAttempt
    simp only [hnone1]
  · unfold submitQuizAttempt
    simp only [hnone2]
  · unfold abandonAttempt
    simp only [hnone1]
  · unfold abandonAttempt
    simp only [hnone2]

/-- Witness for C10: an id absent from the store and the attempt of s1
called by s2 produce the identical error for both operations. -/
theorem C10_missing_and_foreign_same_error_witness :
    ((∀ a ∈ wDb0.quiz_attempts, a.id ≠ "nope") ∧
      (∀ a ∈ wDb0.quiz_attempts, a.id = "at" → a.student_id ≠ "s2")) ∧
    (submitQuizAttempt wDb0 "nope" "s2" 5000
        = (wDb0, .error .attemptNotFoundOrAccessDenied) ∧
      submitQuizAttempt wDb0 "at" "s2" 5000
        = (wDb0, .error .attemptNotFoundOrAccessDenied) ∧
      abandonAttempt wDb0 "nope" "s2"
        = (wDb0, .error .attemptNotFoundOrAccessDenied) ∧
      abandonAttempt wDb0 "at" "s2"
        = (wDb0, .error .attemptNotFoundOrAccessDenied)) :=
  ⟨⟨by decide, by decide⟩,
    C10_missing_and_foreign_same_error wDb0 "nope" "at" "s2" 5000
      (by decide) (by decide)⟩

/-- C6: recording a null selection on an in-progress attempt succeeds and
upserts a row with correctness false and zero points, and the full weight
of the question still enters total_points when the attempt is later
finalized. -/
theorem C6_skip_semantics (db : Db) (A Q : String) (nid : String) (t : Int)
    (attempt : QuizAttempt) (question : Question)
    (hu : (db.attempt_answers.filter (fun a =>
      a.attempt_id == A && a.question_id == Q)).length ≤ 1)
    (hfa : db.quiz_attempts.find? (fun a => a.id == A) = some attempt)
    (hcomp : attempt.is_completed = false)
    (hfq : db.questions.find? (fun q => q.id == Q) = some question)
    (hqz : question.quiz_id = attempt.quiz_id)
    (hnd : (db.quiz_attempts.map QuizAttempt.id).Nodup) :
    ∃ r, (submitAnswer db A Q none nid t).2 = .ok r ∧
      r.selected_option_id = none ∧ r.is_correct = false ∧
      r.points_earned = 0 ∧
      ∀ sid now att,
        (submitQuizAttempt (submitAnswer db A Q none nid t).1 A sid
          now).2 = .ok att →
        ∃ tp, att.total_points = some tp ∧ question.points ≤ tp := by
  have hev : evalSelection db question Q none = .ok (false, 0) := rfl
  rcases submitAnswer_success nid t hfa hcomp hfq hqz hev
    with ⟨r, heq, hrfind⟩
  rcases upsertAnswer_filter_key db A Q none false 0 nid t hu
    with ⟨w, hw, _, _, hwsel, hwc, hwp, _⟩
  have hrw : r = w := by
    have hrmem : r ∈ List.filter (fun a =>
        a.attempt_id == A && a.question_id == Q)
        (upsertAnswer db A Q none false 0 nid t).attempt_answers :=
      List.mem_filter.mpr ⟨List.mem_of_find?_eq_some hrfind,
        List.find?_some (p := fun (a : AttemptAnswer) =>
          a.attempt_id == A && a.question_id == Q) hrfind⟩
    rw [hw] at hrmem
    exact List.mem_singleton.mp hrmem
  subst hrw
  refine ⟨r, by rw [heq], hwsel, hwc, hwp, ?_⟩
  intro sid now att hsub
  rcases submitQuizAttempt_ok_spec hsub with ⟨attempt2, hfind2, _, _, hre2⟩
  have hdb1 : (submitAnswer db A Q none nid t).1
      = upsertAnswer db A Q none false 0 nid t := by rw [heq]
  have hfind2' : (upsertAnswer db A Q none false 0 nid t).quiz_attempts.find?
      (fun a => a.id == A && a.student_id == sid) = some attempt2 := by
    rw [← hdb1]
    exact hfind2
  have hpred2 := List.find?_some hfind2'
  rw [Bool.and_eq_true] at hpred2
  have hmem2 : attempt2 ∈ db.quiz_attempts := by
    have := List.mem_of_find?_eq_some hfind2'
    rw [upsertAnswer_quiz_attempts] at this
    exact this
  have hmem1 : attempt ∈ db.quiz_attempts := by
    have := List.mem_of_find?_eq_some hfa
    exact this
  have hpred1 := List.find?_some hfa
  have heqatt : attempt2 = attempt :=
    List.inj_on_of_nodup_map hnd hmem2 hmem1
      (by rw [beq_iff_eq.mp hpred2.1, beq_iff_eq.mp hpred1])
  have hqmem : question ∈ (submitAnswer db A Q none nid t).1.questions := by
    rw [submitAnswer_fst_questions]
    exact List.mem_of_find?_eq_some hfq
  have hattpred := List.find?_some hre2
  rw [Bool.and_eq_true] at hattpred
  have hspec := finalize_mem_spec (List.mem_of_find?_eq_some hre2)
    (beq_iff_eq.mp hattpred.1)
  refine ⟨total_points (submitAnswer db A Q none nid t).1 A
    attempt2.quiz_id, hspec.2.2.1, ?_⟩
  apply le_total_points
  · exact hqmem
  · rw [heqatt]
    exact hqz

/-- Witness for C6: skipping question 2 of the example quiz and then
submitting; its weight 5 is bounded by the stored total. -/
theorem C6_skip_semantics_witness :
    ((wDb0.attempt_answers.filter (fun a =>
        a.attempt_id == "at" && a.question_id == "q2")).length ≤ 1 ∧
      wDb0.quiz_attempts.find? (fun a => a.id == "at") = some wAttempt ∧
      wAttempt.is_completed = false ∧
      wDb0.questions.find? (fun q => q.id == "q2") = some wQ2 ∧
      wQ2.quiz_id = wAttempt.quiz_id ∧
      (wDb0.quiz_attempts.map QuizAttempt.id).Nodup) ∧
    (∃ r, (submitAnswer wDb0 "at" "q2" none "a2" 2200).2 = .ok r ∧
      r.selected_option_id = none ∧ r.is_correct = false ∧
      r.points_earned = 0 ∧
      ∀ sid now att,
        (submitQuizAttempt (submitAnswer wDb0 "at" "q2" none "a2" 2200).1
          "at" sid now).2 = .ok att →
        ∃ tp, att.total_points = some tp ∧ wQ2.points ≤ tp) :=
  ⟨⟨by decide, by decide, by decide, by decide, by decide, by decide⟩,
    C6_skip_semantics wDb0 "at" "q2" "a2" 2200 wAttempt wQ2 (by decide)
      (by decide) (by decide) (by decide) (by decide) (by decide)⟩

/-- C7: after any sequence of recordAnswer calls (with fresh generated row
ids) on a store whose stored answers respect the current weights, a
successful submitAttempt stores a score between 0 and 100, and the score
is 0 whenever the stored total is 0. -/
theorem C7_score_bounds (db0 : Db) (calls : List AnswerCall)
    (A sid : String) (now : Int) (attempt : QuizAttempt)
    (hndq : QuestionIdsNodup db0)
    (hb : AnswerPointsBounded db0)
    (hfr : ((db0.attempt_answers.map AttemptAnswer.id)
      ++ calls.map AnswerCall.newId).Nodup)
    (hfind : (applyAnswers db0 calls).quiz_attempts.find? (fun a =>
      a.id == A && a.student_id == sid) = some attempt)
    (hcomp : attempt.is_completed = false) :
    ∃ att s,
      (submitQuizAttempt (applyAnswers db0 calls) A sid now).2 = .ok att ∧
      att.score = some s ∧ 0 ≤ s ∧ s ≤ 100 ∧
      (att.total_points = some 0 → s = 0) := by
  rcases applyAnswers_inv db0 calls hndq hb hfr with ⟨hb', _⟩
  rcases submitQuizAttempt_success hfind hcomp with ⟨att, heq, hatt⟩
  have hattpred := List.find?_some hatt
  rw [Bool.and_eq_true] at hattpred
  have hspec := finalize_mem_spec (List.mem_of_find?_eq_some hatt)
    (beq_iff_eq.mp hattpred.1)
  refine ⟨att, scoreVal (applyAnswers db0 calls) A attempt.quiz_id,
    by rw [heq], hspec.1, scoreVal_nonneg _ _ _,
    scoreVal_le_100 _ _ _ hb', ?_⟩
  intro h0
  have htp0 : total_points (applyAnswers db0 calls) A attempt.quiz_id = 0 := by
    have h := hspec.2.2.1
    rw [h] at h0
    exact Option.some.inj h0
  exact scoreVal_eq_zero _ _ _ htp0

/-- Witness for C7: one correct answer recorded on the empty attempt store
and then submitted. -/
theorem C7_score_bounds_witness :
    (QuestionIdsNodup wDb0 ∧ AnswerPointsBounded wDb0 ∧
      ((wDb0.attempt_answers.map AttemptAnswer.id)
        ++ [AnswerCall.mk "at" "q1" (some "o1a") "a1" 2000].map
          AnswerCall.newId).Nodup ∧
      (applyAnswers wDb0 [AnswerCall.mk "at" "q1" (some "o1a") "a1"
        2000]).quiz_attempts.find? (fun a =>
          a.id == "at" && a.student_id == "s1") = some wAttempt ∧
      wAttempt.is_completed = false) ∧
    (∃ att s,
      (submitQuizAttempt (applyAnswers wDb0
        [AnswerCall.mk "at" "q1" (some "o1a") "a1" 2000]) "at" "s1"
          5000).2 = .ok att ∧
      att.score = some s ∧ 0 ≤ s ∧ s ≤ 100 ∧
      (att.total_points = some 0 → s = 0)) :=
  ⟨⟨by decide, by decide, by decide, by decide, by decide⟩,
    C7_score_bounds wDb0 [AnswerCall.mk "at" "q1" (some "o1a") "a1" 2000]
      "at" "s1" 5000 wAttempt (by decide) (by decide) (by decide)
      (by decide) (by decide)⟩

/-- C8 counterexample: the claim says recordAnswer fails with a validation
error whenever a non-null selectedOptionId does not belong to the
question.  The empty string is non-null and belongs to no option of the
question, yet the call succeeds, because the source guards the option
check with JavaScript truthiness and the empty string is falsy: the call
records a skip-shaped row storing the empty string as the selection. -/
theorem C8_counterexample :
    (∀ o ∈ wDb0.answer_options, o.id ≠ "") ∧
    (submitAnswer wDb0 "at" "q1" (some "") "aE" 2100).2
      = .ok wAnswerEmpty ∧
    wAnswerEmpty.selected_option_id = some "" := by decide

/-- C8 amended: recordAnswer fails with the question validation error
whenever the question does not belong to the quiz of the attempt, fails
with the option validation error whenever a non-null, non-empty
selectedOptionId does not belong to the question (the empty string is
treated like null by the truthiness guard), and every failing call leaves
the stored state exactly as it was. -/
theorem C8_validation_and_no_partial_writes (db : Db) (A Q : String)
    (nid : String) (t : Int) (attempt : QuizAttempt)
    (hfa : db.quiz_attempts.find? (fun a => a.id == A) = some attempt)
    (hcomp : attempt.is_completed = false) :
    (∀ sel,
      (∀ question, db.questions.find? (fun q => q.id == Q) = some question →
        question.quiz_id ≠ attempt.quiz_id) →
      submitAnswer db A Q sel nid t = (db, .error .questionNotInQuiz)) ∧
    (∀ oid question, oid ≠ "" →
      db.questions.find? (fun q => q.id == Q) = some question →
      question.quiz_id = attempt.quiz_id →
      (∀ opt, db.answer_options.find? (fun o => o.id == oid) = some opt →
        opt.question_id ≠ Q) →
      submitAnswer db A Q (some oid) nid t
        = (db, .error .optionNotInQuestion)) ∧
    (∀ sel e, (submitAnswer db A Q sel nid t).2 = .error e →
      (submitAnswer db A Q sel nid t).1 = db) := by
  have h1 : ¬(attempt.is_completed = true) := by simp [hcomp]
  refine ⟨?_, ?_, fun sel e he => submitAnswer_error_unchanged he⟩
  · intro sel hbad
    unfold submitAnswer
    cases hfq : db.questions.find? (fun q => q.id == Q) with
    | none => simp only [hfa, if_neg h1, hfq]
    | some question =>
      have hne : (question.quiz_id != attempt.quiz_id) = true :=
        bne_iff_ne.mpr (hbad question hfq)
      simp only [hfa, if_neg h1, hfq]
      rw [if_pos hne]
  · intro oid question hoid hfq hqz hbad
    have h2 : ¬((question.quiz_id != attempt.quiz_id) = true) := by
      simp [hqz]
    have hev : evalSelection db question Q (some oid)
        = .error .optionNotInQuestion := by
      unfold evalSelection
      have hne : (oid == "") = false := beq_eq_false_iff_ne.mpr hoid
      simp only [hne, Bool.false_eq_true, if_false]
      cases hfo : db.answer_options.find? (fun o => o.id == oid) with
      | none => rfl
      | some opt =>
        have hne2 : (opt.question_id != Q) = true :=
          bne_iff_ne.mpr (hbad opt hfo)
        simp only
        rw [if_pos hne2]
    unfold submitAnswer
    simp only [hfa, if_neg h1, hfq, if_neg h2, hev]

/-- Witness for the amended C8: question q1 asked against a foreign quiz
id fails, option o2a of question 2 used for question 1 fails, both leave
the store untouched. -/
theorem C8_validation_and_no_partial_writes_witness :
    (wDb0.quiz_attempts.find? (fun a => a.id == "at") = some wAttempt ∧
      wAttempt.is_completed = false) ∧
    ((∀ sel,
      (∀ question, wDb0.questions.find? (fun q =>
        q.id == "missing") = some question →
        question.quiz_id ≠ wAttempt.quiz_id) →
      submitAnswer wDb0 "at" "missing" sel "aX" 2300
        = (wDb0, .error .questionNotInQuiz)) ∧
    (∀ oid question, oid ≠ "" →
      wDb0.questions.find? (fun q => q.id == "missing") = some question →
      question.quiz_id = wAttempt.quiz_id →
      (∀ opt, wDb0.answer_options.find? (fun o => o.id == oid) = some opt →
        opt.question_id ≠ "missing") →
      submitAnswer wDb0 "at" "missing" (some oid) "aX" 2300
        = (wDb0, .error .optionNotInQuestion)) ∧
    (∀ sel e, (submitAnswer wDb0 "at" "missing" sel "aX" 2300).2 = .error e →
      (submitAnswer wDb0 "at" "missing" sel "aX" 2300).1 = wDb0)) :=
  ⟨⟨by decide, by decide⟩,
    C8_validation_and_no_partial_writes wDb0 "at" "missing" "aX" 2300
      wAttempt (by decide) (by decide)⟩

/-- submitQuizAttempt never reads the answer_options table: swapping it
for anything leaves the outcome and the stored attempts unchanged. -/
theorem submitQuizAttempt_ignores_options (db : Db)
    (opts : List AnswerOption) (A sid : String) (now : Int) :
    (submitQuizAttempt { db with answer_options := opts } A sid now).2
      = (submitQuizAttempt db A sid now).2 ∧
    (submitQuizAttempt { db with answer_options := opts }
      A sid now).1.quiz_attempts
      = (submitQuizAttempt db A sid now).1.quiz_attempts := by
  unfold submitQuizAttempt
  cases hf : db.quiz_attempts.find? (fun a =>
      a.id == A && a.student_id == sid) with
  | none =>
    have hf' : ({ db with answer_options := opts } : Db).quiz_attempts.find?
        (fun a => a.id == A && a.student_id == sid) = none := hf
    simp only [hf, hf']
    constructor <;> trivial
  | some attempt =>
    have hf' : ({ db with answer_options := opts } : Db).quiz_attempts.find?
        (fun a => a.id == A && a.student_id == sid) = some attempt := hf
    simp only [hf, hf']
    by_cases hc : attempt.is_completed = true
    · rw [if_pos hc, if_pos hc]
      constructor <;> trivial
    · rw [if_neg hc, if_neg hc]
      cases hr : (finalizeAttempt db A attempt now).quiz_attempts.find?
          (fun a => a.id == A && a.student_id == sid) with
      | none =>
        have hr' : (finalizeAttempt { db with answer_options := opts }
            A attempt now).quiz_attempts.find? (fun a =>
              a.id == A && a.student_id == sid) = none := hr
        simp only [hr, hr']
        constructor <;> trivial
      | some a =>
        have hr' : (finalizeAttempt { db with answer_options := opts }
            A attempt now).quiz_attempts.find? (fun a =>
              a.id == A && a.student_id == sid) = some a := hr
        simp only [hr, hr']
        constructor <;> trivial

/-- C9: submitAttempt does not recompute per-answer correctness or points
at finalization: the stored points_earned is the sum of the per-answer
values written earlier (under the weights in force when each answer was
recorded), the stored total_points uses the current weights, and the
whole computation is independent of the answer_options table. -/
theorem C9_no_rescoring_at_submit (db : Db) (A sid : String) (now : Int)
    (attempt : QuizAttempt)
    (hfind : db.quiz_attempts.find? (fun a =>
      a.id == A && a.student_id == sid) = some attempt)
    (hcomp : attempt.is_completed = false)
    (hndq : QuestionIdsNodup db)
    (hu : AttemptAnswersUnique db A)
    (hbel : AnswersBelongToQuiz db A attempt.quiz_id) :
    (∃ att,
      (submitQuizAttempt db A sid now).2 = .ok att ∧
      att.points_earned = some (((db.attempt_answers.filter (fun a =>
        a.attempt_id == A)).map AttemptAnswer.points_earned).sum) ∧
      att.total_points = some (((db.questions.filter (fun q =>
        q.quiz_id == attempt.quiz_id)).map Question.points).sum)) ∧
    (∀ opts : List AnswerOption,
      (submitQuizAttempt { db with answer_options := opts } A sid now).2
        = (submitQuizAttempt db A sid now).2 ∧
      (submitQuizAttempt { db with answer_options := opts }
        A sid now).1.quiz_attempts
        = (submitQuizAttempt db A sid now).1.quiz_attempts) := by
  constructor
  · rcases submitQuizAttempt_success hfind hcomp with ⟨att, heq, hatt⟩
    have htp := total_points_eq db A attempt.quiz_id hu
    have hpe := points_earned_eq db A attempt.quiz_id hndq hbel
    have hattpred := List.find?_some hatt
    rw [Bool.and_eq_true] at hattpred
    have hspec := finalize_mem_spec (List.mem_of_find?_eq_some hatt)
      (beq_iff_eq.mp hattpred.1)
    exact ⟨att, by rw [heq], by rw [hspec.2.1, hpe],
      by rw [hspec.2.2.1, htp]⟩
  · intro opts
    exact submitQuizAttempt_ignores_options db opts A sid now

/-- Witness for C9: the edited store, in which the answer was recorded
while its question weighed 10 and the question now weighs 3.  The stored
numerator is the answer-time 10 while the denominator is the current 3. -/
theorem C9_no_rescoring_at_submit_witness :
    (wDbEdited.quiz_attempts.find? (fun a =>
        a.id == "at" && a.student_id == "s1") = some wAttempt ∧
      wAttempt.is_completed = false ∧ QuestionIdsNodup wDbEdited ∧
      AttemptAnswersUnique wDbEdited "at" ∧
      AnswersBelongToQuiz wDbEdited "at" wAttempt.quiz_id) ∧
    ((∃ att,
      (submitQuizAttempt wDbEdited "at" "s1" 5000).2 = .ok att ∧
      att.points_earned = some (((wDbEdited.attempt_answers.filter (fun a =>
        a.attempt_id == "at")).map AttemptAnswer.points_earned).sum) ∧
      att.total_points = some (((wDbEdited.questions.filter (fun q =>
        q.quiz_id == wAttempt.quiz_id)).map Question.points).sum)) ∧
    (∀ opts : List AnswerOption,
      (submitQuizAttempt { wDbEdited with answer_options := opts }
        "at" "s1" 5000).2
        = (submitQuizAttempt wDbEdited "at" "s1" 5000).2 ∧
      (submitQuizAttempt { wDbEdited with answer_options := opts }
        "at" "s1" 5000).1.quiz_attempts
        = (submitQuizAttempt wDbEdited "at" "s1" 5000).1.quiz_attempts)) :=
  ⟨⟨by decide, by decide, by decide, by decide, by decide⟩,
    C9_no_rescoring_at_submit wDbEdited "at" "s1" 5000 wAttempt (by decide)
      (by decide) (by decide) (by decide) (by decide)⟩

end QuizMaker
